import Mathlib

/-!
# Shallow embedding of the nextmu-update core

This file embeds, in Lean 4, the parts of the update-distribution service
that the verified properties talk about:

* the upload coordinator (`startUploadVersion`, `uploadVersionChunk`) from
  `src/services/api/update.ts`;
* the pipeline worker (`processUploadVersion`, `processPublishVersion`,
  `matchRegexes`) from `src/services/bullmq/updates/index.ts`;
* the resolver's dedup pass (`getUpdateFiles`) from
  `src/services/api/update.ts`;
* the MongoDB helpers (`setUploadState`, `setVersionState`,
  `deleteUploadChunks`) from `src/services/mongodb/update.ts`;
* `enumerateFiles` and the blob-key helpers from `src/utils/index.ts`.

Document ids (Mongo ObjectIds) are modelled as naturals; their string
rendering (`toHexString` in the source) is modelled by `idStr`, an
injective rendering, since only the shape and injectivity of the rendered
ids matter to the properties.  Dates are epoch milliseconds as naturals.
Byte buffers are lists of naturals.  The SHA-256, CRC-32 and deflate
primitives are abstracted as function parameters.  MongoDB collections are
lists of row structures; `updateOne` updates the first matching row,
matching `findOne` which returns the first match.
-/

namespace NextMU

/-- Upload state enum (`proto/nextmu/v1/UploadState`). -/
inductive UploadState where
  | NONE | PENDING | PROCESSING | READY
deriving DecidableEq, Repr

/-- Version state enum (`proto/nextmu/v1/VersionState`). -/
inductive VersionState where
  | PENDING | PROCESSING | READY
deriving DecidableEq, Repr

/-- `IMDBUpload` document (`services/mongodb/schemas/updates/uploads.ts`). -/
structure UploadRow where
  _id : Nat
  versionId : Nat
  concurrentId : Nat
  state : UploadState
  hash : String
  typ : String
  fileSize : Nat
  chunkSize : Nat
  chunksCount : Nat
  createdAt : Nat
  updatedAt : Nat
deriving DecidableEq, Repr

/-- `IMDBUploadChunk` document (`services/mongodb/schemas/updates/chunks.ts`). -/
structure ChunkRow where
  uploadId : Nat
  concurrentId : Nat
  offset : Nat
  size : Nat
  createdAt : Nat
deriving DecidableEq, Repr

/-- `IMDBVersion` document (`services/mongodb/schemas/updates/versions.ts`). -/
structure VersionRow where
  _id : Nat
  major : Nat
  minor : Nat
  revision : Nat
  description : String
  state : VersionState
  createdAt : Nat
  updatedAt : Nat
deriving DecidableEq, Repr

/-- `IMDBUpdateFile` document (`services/mongodb/schemas/updates/files.ts`). -/
structure FileRow where
  versionId : Nat
  category : Nat
  fileName : String
  extension : String
  localPath : String
  packedSize : Nat
  fileSize : Nat
  crc32 : String
  createdAt : Nat
deriving DecidableEq, Repr

/-- A stored blob: object key paired with its bytes. -/
structure Blob where
  key : String
  bytes : List Nat
deriving DecidableEq, Repr

/-- BullMQ job payloads (`services/bullmq/updates/types`). -/
inductive JobPayload where
  | processUpload (versionId uploadId concurrentId : Nat)
  | processPublish (versionId : Nat)
deriving DecidableEq, Repr

/-- Whether a queued job is live (waiting/active/completed-retained) or failed. -/
inductive JobStatus where
  | live | failed
deriving DecidableEq, Repr

/-- A queued BullMQ job, identified by its dedup `jobId`. -/
structure QJob where
  id : String
  payload : JobPayload
  status : JobStatus
deriving DecidableEq, Repr

/-- The observable system state: the five relevant document collections,
the Input and Output blob stores and the job queue. -/
structure St where
  versions : List VersionRow
  uploads : List UploadRow
  chunks : List ChunkRow
  files : List FileRow
  inputBlobs : List Blob
  outputBlobs : List Blob
  queue : List QJob
deriving DecidableEq, Repr

/-- Injective string rendering of a document id (source: `ObjectId.toHexString`). -/
def idStr (n : Nat) : String := toString n

/-- `Math.ceil(fileSize / chunkSize)` on positive integers. -/
def ceilDiv (fileSize chunkSize : Nat) : Nat := (fileSize + chunkSize - 1) / chunkSize

/-- `offset.toString().padStart(8, '0')` (zero-padded chunk file stem). -/
def pad8 (n : Nat) : String :=
  let s := toString n
  String.mk (List.replicate (8 - s.length) '0') ++ s

/-- Update the first row matching `p` (MongoDB `updateOne`). -/
def updateFirst {α : Type} (p : α → Bool) (f : α → α) : List α → List α
  | [] => []
  | a :: as => if p a then f a :: as else a :: updateFirst p f as

/-- `setUploadState` (`services/mongodb/update.ts`): compare-and-set the
state of the upload matched by `(_id, concurrentId)`, guarded on
`checkState` when given. -/
def setUploadState (st : St) (uploadId concurrentId : Nat) (state : UploadState)
    (checkState : Option UploadState) : St :=
  { st with uploads :=
      (updateFirst
        (fun u => u._id == uploadId && u.concurrentId == concurrentId &&
          (match checkState with | none => true | some c => u.state == c))
        (fun u => { u with state := state }) st.uploads) }

/-- `setVersionState` (`unnamed/part_003`): compare-and-set the state of
the version matched by `_id`, guarded on `checkState` when given. -/
def setVersionState (st : St) (versionId : Nat) (state : VersionState)
    (checkState : Option VersionState) : St :=
  { st with versions :=
      (updateFirst
        (fun v => v._id == versionId &&
          (match checkState with | none => true | some c => v.state == c))
        (fun v => { v with state := state }) st.versions) }

/-- `deleteUploadChunks` (`unnamed/part_003`): delete every chunk row of
the upload, all epochs. -/
def deleteUploadChunks (st : St) (uploadId : Nat) : St :=
  { st with chunks := st.chunks.filter (fun c => c.uploadId != uploadId) }

/-- String prefix test used for blob folder prefixes. -/
def strPrefix (p s : String) : Bool := p.toList.isPrefixOf s.toList

/-- `toUpperCase`, structurally over the character list (the `String`
primitive is defined by well-founded recursion and does not reduce in the
kernel). -/
def upperStr (s : String) : String := String.mk (s.toList.map Char.toUpper)

/-- Drop the first `n` characters, structurally over the character list. -/
def strDrop (s : String) (n : Nat) : String := String.mk (s.toList.drop n)

/-- The payload of a successful `Except` computation, if any. -/
def exOk? {ε α : Type} : Except ε α → Option α
  | .ok a => some a
  | .error _ => none

/-- `deleteFolder` on a blob store: drop every blob under the prefix. -/
def deleteFolderBlobs (blobs : List Blob) (prefx : String) : List Blob :=
  blobs.filter (fun b => ! strPrefix prefx b.key)

/-- `uploadBuffer`/`uploadFile` on a blob store: PUT, replacing any blob
already present at the key. -/
def putBlob (blobs : List Blob) (key : String) (bytes : List Nat) : List Blob :=
  (blobs.filter (fun b => b.key != key)) ++ [⟨key, bytes⟩]

/-- `downloadFile`: the bytes stored at a key, if present. -/
def getBlob (blobs : List Blob) (key : String) : Option (List Nat) :=
  (blobs.find? (fun b => b.key = key)).map Blob.bytes

/-- `downloadFolder`: the blobs under a prefix, as local files named by
the key with the prefix removed. -/
def downloadFolderBlobs (blobs : List Blob) (prefx : String) : List (String × List Nat) :=
  (blobs.filter (fun b => strPrefix prefx b.key)).map
    (fun b => (strDrop b.key prefx.length, b.bytes))

/-- Modelled from the spec: the three-argument `getInputFolder` used by
`uploadVersionChunk` and the worker is absent from `src/utils/index.ts`
(only a two-argument historical variant survives).  §6 of the spec fixes
the Input layout for chunks as `{upload_id_upper}/{hash_upper}/…`. -/
def getInputFolder (uploadId hash _concurrentId : String) : String :=
  upperStr uploadId ++ "/" ++ upperStr hash ++ "/"

/-- `getUploadFile` (`src/utils/index.ts`): key of the assembled zip. -/
def getUploadFile (versionId : String) : String := upperStr versionId ++ ".zip"

/-- Modelled from the spec: `getMissingRanges` is referenced from
`src/services/api/update.ts` but its definition is not in `src/`.  §4.4:
given the set `S` of present offsets, it yields the minimal list of
maximal contiguous closed intervals of `{0..count-1} \ S` in increasing
order. -/
def getMissingRanges (offsets : List Nat) (count : Nat) : List (Nat × Nat) :=
  (((List.range count).filter (fun i => ! offsets.contains i)).foldl
    (fun acc i =>
      match acc with
      | [] => [(i, i)]
      | (s, e) :: rest => if i = e + 1 then (s, i) :: rest else (i, i) :: (s, e) :: rest)
    []).reverse

/-! ## Job queue (`services/api/update.ts` : `processUpdateFile`) -/

/-- The dedup id of a Reassemble job:
`version-{version_id}-{upload_id}-{concurrent_id}`. -/
def reassembleJobId (versionId uploadId concurrentId : Nat) : String :=
  "version-" ++ idStr versionId ++ "-" ++ idStr uploadId ++ "-" ++ idStr concurrentId

/-- `processUpdateFile` (`services/api/update.ts`): look up the job by its
dedup id; a failed job is removed and re-enqueued; a live job is kept and
nothing is enqueued; otherwise a fresh ProcessUpload job is added. -/
def processUpdateFile (q : List QJob) (versionId uploadId concurrentId : Nat) : List QJob :=
  let jobId := reassembleJobId versionId uploadId concurrentId
  let fresh : QJob := ⟨jobId, .processUpload versionId uploadId concurrentId, .live⟩
  match q.find? (fun j => j.id == jobId) with
  | some j =>
      if j.status = .failed then (q.filter (fun j' => j'.id != jobId)) ++ [fresh]
      else q
  | none => q ++ [fresh]

/-! ## Upload coordinator (`services/api/update.ts`) -/

/-- The `BAD_REQUEST` validation errors of `uploadVersionChunk`, in source
order. -/
inductive ChunkError where
  | emptyBuffer
  | invalidUpload
  | invalidOffset
  | invalidSize
deriving DecidableEq, Repr

/-- Reply of `uploadVersionChunk`. -/
structure ChunkReply where
  finished : Bool
deriving DecidableEq, Repr

/-- The chunk-row upsert of `uploadVersionChunk`: `updateOne` with
`$setOnInsert` and `upsert: true` keyed on
`(uploadId, concurrentId, offset)` — inserts the row when the key is
absent and changes nothing when it is present. -/
def chunkUpsert (rows : List ChunkRow) (row : ChunkRow) : List ChunkRow :=
  if rows.any (fun c => c.uploadId == row.uploadId &&
      c.concurrentId == row.concurrentId && c.offset == row.offset)
  then rows
  else rows ++ [row]

/-- The accept path of `uploadVersionChunk`, entered once every
validation has passed: write the chunk blob, upsert the chunk row, count
the epoch's rows, and on completion CAS the upload `NONE → PENDING` and
enqueue the Reassemble job. -/
def acceptChunk (st : St) (upload : UploadRow) (uploadId concurrentId offset : Nat)
    (data : List Nat) (now : Nat) : St × ChunkReply :=
  let key := getInputFolder (idStr uploadId) upload.hash (idStr concurrentId)
    ++ pad8 offset ++ ".data"
  let st1 := { st with inputBlobs := putBlob st.inputBlobs key data }
  let st2 := { st1 with chunks :=
    (chunkUpsert st1.chunks ⟨uploadId, concurrentId, offset, data.length, now⟩) }
  let count := (st2.chunks.filter (fun c =>
    c.uploadId == uploadId && c.concurrentId == concurrentId)).length
  let st3 :=
    if upload.chunksCount = count then
      let st' := setUploadState st2 uploadId concurrentId .PENDING (some .NONE)
      { st' with queue := processUpdateFile st'.queue upload.versionId uploadId concurrentId }
    else st2
  (st3, ⟨upload.chunksCount == count⟩)

/-- `uploadVersionChunk` (`services/api/update.ts`, first variant):
the four `BAD_REQUEST` validations in source order, then the accept
path.  `data` is the chunk body; `now` the insertion date. -/
def uploadVersionChunk (st : St) (uploadId concurrentId offset : Nat)
    (data : List Nat) (now : Nat) : Except ChunkError (St × ChunkReply) :=
  if data.length = 0 then .error .emptyBuffer
  else
    match st.uploads.find? (fun u => u._id == uploadId && u.concurrentId == concurrentId) with
    | none => .error .invalidUpload
    | some upload =>
      if offset ≥ upload.chunksCount then .error .invalidOffset
      else if (offset : Int) = (upload.chunksCount : Int) - 1 then
        if (upload.fileSize : Int) - upload.chunkSize * ((upload.chunksCount : Int) - 1)
            ≠ (data.length : Int)
        then .error .invalidSize
        else .ok (acceptChunk st upload uploadId concurrentId offset data now)
      else
        if upload.chunkSize ≠ data.length then .error .invalidSize
        else .ok (acceptChunk st upload uploadId concurrentId offset data now)

/-- Reply of `startUploadVersion`. -/
structure StartUploadReply where
  uploadId : Nat
  concurrentId : Nat
  missingRanges : List (Nat × Nat)
deriving DecidableEq, Repr

/-- The aggregation-pipeline `$set` of `startUploadVersion` applied to an
existing upload row (`findOneAndUpdate`, `returnDocument: 'before'`).
When the stored `(hash, chunkSize)` equal the request's, `concurrentId`,
`state` and `updatedAt` are kept; otherwise `concurrentId` becomes the
freshly generated id, `state` resets to NONE and `updatedAt` to `now`.
`hash`, `fileSize`, `chunkSize`, `chunksCount` are always overwritten;
`_id` and `createdAt` are kept via `$ifNull`. -/
def startUploadPipeline (old : UploadRow) (hash : String) (chunkSize fileSize : Nat)
    (freshConcurrentId now : Nat) : UploadRow :=
  let same := old.hash = hash ∧ old.chunkSize = chunkSize
  { old with
    concurrentId := if same then old.concurrentId else freshConcurrentId
    state := if same then old.state else .NONE
    hash := hash
    fileSize := fileSize
    chunkSize := chunkSize
    chunksCount := ceilDiv fileSize chunkSize
    updatedAt := if same then old.updatedAt else now }

/-- `startUploadVersion` (`services/api/update.ts`, first variant).
`id` is the version id; `freshUploadId`/`freshConcurrentId` are the
`ObjectId`s generated at the top of the call.  When no row exists for the
version, the upserted row is built by the pipeline from the filter's
equality fields and the reply covers the full range.  When a row exists,
the pipeline updates it; if `(hash, chunkSize)` changed, the code then
deletes the chunk rows matching `(uploadId, freshConcurrentId)` and the
Input blobs under `{version_id}/{hash}/` — both with the *new* ids — and
finally recomputes missing ranges from every chunk row of the upload. -/
def startUploadVersion (st : St) (id : Nat) (hash typ : String)
    (chunkSize fileSize : Nat) (freshUploadId freshConcurrentId now : Nat) :
    St × StartUploadReply :=
  let chunksCount := ceilDiv fileSize chunkSize
  match st.uploads.find? (fun u => u.versionId == id) with
  | none =>
      let row : UploadRow :=
        { _id := freshUploadId, versionId := id, concurrentId := freshConcurrentId,
          state := .NONE, hash := hash, typ := typ, fileSize := fileSize,
          chunkSize := chunkSize, chunksCount := chunksCount,
          createdAt := now, updatedAt := now }
      ({ st with uploads := st.uploads ++ [row] },
        ⟨freshUploadId, freshConcurrentId, [(0, chunksCount - 1)]⟩)
  | some old =>
      let updated := startUploadPipeline old hash chunkSize fileSize freshConcurrentId now
      let st1 := { st with uploads :=
        (updateFirst (fun u => u.versionId == id) (fun _ => updated) st.uploads) }
      let st2 :=
        if old.hash ≠ hash ∨ old.chunkSize ≠ chunkSize then
          { st1 with
            chunks := st1.chunks.filter (fun c =>
              ! (c.uploadId == old._id && c.concurrentId == freshConcurrentId)),
            inputBlobs := deleteFolderBlobs st1.inputBlobs (idStr id ++ "/" ++ hash ++ "/") }
        else st1
      let offsets := (st2.chunks.filter (fun c => c.uploadId == old._id)).map ChunkRow.offset
      (st2, ⟨old._id, old.concurrentId, getMissingRanges offsets chunksCount⟩)

/-! ## Pipeline worker (`services/bullmq/updates/index.ts`) -/

/-- The chunk-file concatenation of `processUploadVersion`: the files
returned by `enumerateFiles` are read and piped into `update.zip` in
enumeration order (lines 225–245); no sort is applied to the list. -/
def assembleBytes (localFiles : List (String × List Nat)) : List Nat :=
  (localFiles.map Prod.snd).flatten

/-- Insertion into a list sorted by ascending numeric offset. -/
def insertByOffset (p : Nat × List Nat) : List (Nat × List Nat) → List (Nat × List Nat)
  | [] => [p]
  | q :: qs => if p.1 ≤ q.1 then p :: q :: qs else q :: insertByOffset p qs

/-- Insertion sort by ascending numeric offset. -/
def sortByOffset : List (Nat × List Nat) → List (Nat × List Nat)
  | [] => []
  | p :: ps => insertByOffset p (sortByOffset ps)

/-- The claim's reference assembly: the chunk files sorted by the numeric
offset in their `{offset:08d}.data` name, then concatenated.  The pairs
carry the numeric offset alongside the bytes. -/
def offsetSortedBytes (chunkFiles : List (Nat × List Nat)) : List Nat :=
  ((sortByOffset chunkFiles).map Prod.snd).flatten

/-- `processUploadVersion` (`services/bullmq/updates/index.ts`).
The SHA-256 primitive is abstracted as `hashFn`; the order in which
`enumerateFiles` lists the downloaded chunk files is abstracted as
`reorder` (the source applies no sort, so the order is whatever `readdir`
yields).  Per the source: find the upload by `(_id, concurrentId)` and
return when absent or owned by another version; CAS
`PENDING → PROCESSING`; download the chunk blobs; concatenate them in
enumeration order; compare the hash and return on mismatch; upload the
assembled zip; CAS `PROCESSING → READY`; delete the chunk blob prefix and
every chunk row of the upload. -/
def processUploadVersion (hashFn : List Nat → String)
    (reorder : List (String × List Nat) → List (String × List Nat))
    (st : St) (versionId uploadId concurrentId : Nat) : Except String St :=
  match st.uploads.find? (fun u => u._id == uploadId && u.concurrentId == concurrentId) with
  | none => .ok st
  | some upload =>
    if upload.versionId ≠ versionId then .ok st
    else
      let st1 := setUploadState st uploadId concurrentId .PROCESSING (some .PENDING)
      let filesPrefix := getInputFolder (idStr uploadId) upload.hash (idStr concurrentId)
      let localFiles := reorder (downloadFolderBlobs st1.inputBlobs filesPrefix)
      let assembled := assembleBytes localFiles
      if hashFn assembled ≠ upload.hash then .ok st1
      else
        let st2 := { st1 with inputBlobs :=
          (putBlob st1.inputBlobs (getUploadFile (idStr versionId)) assembled) }
        let st3 := setUploadState st2 uploadId concurrentId .READY (some .PROCESSING)
        let st4 := { st3 with inputBlobs := deleteFolderBlobs st3.inputBlobs filesPrefix }
        .ok (deleteUploadChunks st4 uploadId)

/-! ## Classification (`processPublishVersion`, lines 362–387) -/

/-- `incomingFolders` (`src/shared/update.ts`). -/
def incomingFolders : List String :=
  ["general",
   "desktop", "mobile",
   "uncompressed", "bc3", "bc7", "etc2", "astc",
   "windows", "linux", "macos", "android", "ios"]

/-- Modelled from the spec: `incomingFoldersRegexes` is referenced from
the worker but defined nowhere under `src/`.  §9 fixes its contract:
ordered by category index, each regex anchors at the root of the zip and
captures the remaining relative path into group 1.  A category's regex is
modelled as its folder name; matching `^{folder}/(.*)$` is prefix removal. -/
def incomingFoldersRegexes : List (List String) :=
  incomingFolders.map (fun f => [f])

/-- The match of one modelled regex `^{folder}/(.*)$` against a path:
`some captured` when the path lives under the folder. -/
def matchRegex (folder : String) (path : String) : Option String :=
  if (folder ++ "/").toList.isPrefixOf path.toList
  then some (strDrop path (folder.length + 1))
  else none

/-- `matchRegexes` (`services/bullmq/updates/index.ts`): the first
matching regex of the list wins, returning its captured group. -/
def matchRegexes (path : String) (regexes : List String) : Option String :=
  match regexes with
  | [] => none
  | r :: rest =>
    match matchRegex r path with
    | some m => some m
    | none => matchRegexes path rest

/-- The category indices a path is pushed to by the classification loop of
`processPublishVersion`: for `n` from `incomingFolders.length - 1` down to
`0`, every `n` whose regex list matches — the loop `continue`s past a
match, so a path is recorded once per matching category. -/
def classifyFile (path : String) : List (Nat × String) :=
  (List.range incomingFolders.length).reverse.filterMap (fun n =>
    (matchRegexes path ((incomingFoldersRegexes.getD n []))).map (fun m => (n, m)))

/-- A file entry of the decompressed archive: relative path and bytes. -/
structure Entry where
  path : String
  bytes : List Nat
deriving DecidableEq, Repr

/-- The classification stage: every enumerated file lands in the bucket of
each category it matches (with the captured group), and `filesCount` is
the total number of pushes. -/
def classifyAll (entries : List Entry) : List (Entry × Nat × String) :=
  entries.flatMap (fun e => (classifyFile e.path).map (fun c => (e, c)))

/-! ## Publish transaction (`processPublishVersion`, lines 447–496) -/

/-- `UpdateTypeLookup` (`src/shared/update.ts`): category enum value per
category index. -/
def UpdateTypeLookup : List Nat :=
  [0, 1, 2, 10, 11, 12, 13, 14, 20, 21, 22, 23, 24]

/-- The body of the publish transaction: `insertMany` of the version's
`UpdateFile` rows followed by the `setVersionState` CAS
`PROCESSING → READY`, both on the same session. -/
def publishTxnBody (st : St) (rows : List FileRow) (versionId : Nat) : St :=
  let st1 := { st with files := st.files ++ rows }
  setVersionState st1 versionId .READY (some .PROCESSING)

/-- MongoDB multi-document transaction semantics for the publish commit:
the session's writes become visible all at once on commit; on any error
the transaction is aborted (`session.abortTransaction()`) and no write is
visible.  `commitOk` abstracts whether the commit succeeds. -/
def runPublishTxn (st : St) (rows : List FileRow) (versionId : Nat) (commitOk : Bool) :
    Except String St :=
  if commitOk then .ok (publishTxnBody st rows versionId)
  else .error "transaction aborted"

/-- `processPublishVersion` (`services/bullmq/updates/index.ts`).
Abstracted primitives: `unzip` (archive bytes to entries), `crcFn`
(CRC-32 as a number; its hex rendering is `toString`), `deflateLen`
(length of the zlib level-9 output), `freshName` (the `MUUID.v4()` drawn
for the file at a given processing position), `commitOk` (whether the
final transaction commits).  Per the source: find the version and return
when absent or READY; CAS `PENDING → PROCESSING`; download and unzip the
assembled archive; classify every entry (loop without break); fail on
zero matches; build a `FileRow` per push with `localPath = file.path` and
`fileName = upper(uuid ++ "_" ++ crc32)`; upload the decompressed tree to
the Output store under `publish/{version_id}/`; run the transaction.
Rows are built here in push order; the source drains the category buckets
in ascending index, a permutation of the same rows, and no verified
property depends on the order. -/
def processPublishVersion (unzip : List Nat → List Entry)
    (crcFn deflateLen : List Nat → Nat) (freshName : Nat → String)
    (now : Nat) (commitOk : Bool) (st : St) (versionId : Nat) : Except String St :=
  match st.versions.find? (fun v => v._id == versionId) with
  | none => .ok st
  | some version =>
    if version.state = .READY then .ok st
    else
      match getBlob (setVersionState st versionId .PROCESSING
          (some .PENDING)).inputBlobs (getUploadFile (idStr versionId)) with
      | none => .error "download failed"
      | some zipBytes =>
        if (classifyAll (unzip zipBytes)).length = 0 then
          .error "Failed : empty update folder"
        else
          let st1 := setVersionState st versionId .PROCESSING (some .PENDING)
          let entries := unzip zipBytes
          let pushes := classifyAll entries
          let rows : List FileRow := pushes.enum.map (fun p =>
            let e := p.2.1
            let n := p.2.2.1
            let crc := crcFn e.bytes
            { versionId := versionId,
              category := UpdateTypeLookup.getD n 0,
              fileName := upperStr (freshName p.1 ++ "_" ++ toString crc),
              extension := ".eupdz",
              localPath := e.path,
              packedSize := deflateLen e.bytes,
              fileSize := e.bytes.length,
              crc32 := toString crc,
              createdAt := now })
          let st2 := { st1 with outputBlobs :=
            (entries.foldl (fun bs e =>
              putBlob bs ("publish/" ++ upperStr (idStr versionId) ++ "/" ++ e.path) e.bytes)
              st1.outputBlobs) }
          runPublishTxn st2 rows versionId commitOk

/-! ## Manifest resolver (`services/api/update.ts` : `getUpdateFiles`) -/

/-- `PlatformLookup` (`src/shared/update.ts`). -/
def PlatformLookup : List Nat := [1, 1, 1, 2, 2, 2]

/-- `OperatingSystemLookup` (`src/shared/update.ts`). -/
def OperatingSystemLookup : List Nat := [20, 21, 22, 0, 23, 24]

/-- `TextureLookup` (`src/shared/update.ts`). -/
def TextureLookup : List Nat := [10, 11, 12, 13, 14]

/-- One entry of the returned manifest. -/
structure ManifestFile where
  UrlPath : String
  LocalPath : String
  Filename : String
  Extension : String
  PackedSize : Nat
  OriginalSize : Nat
  CRC32 : String
deriving DecidableEq, Repr

/-- The resolver's reply. -/
structure Manifest where
  version : String
  files : List ManifestFile
deriving DecidableEq, Repr

/-- Insertion into a version list sorted by ascending `createdAt`. -/
def insertByCreatedAt (v : VersionRow) : List VersionRow → List VersionRow
  | [] => [v]
  | w :: ws => if v.createdAt ≤ w.createdAt then v :: w :: ws
               else w :: insertByCreatedAt v ws

/-- Insertion sort by ascending `createdAt` (the resolver's
`sort({createdAt: 1})`). -/
def sortByCreatedAt : List VersionRow → List VersionRow
  | [] => []
  | v :: vs => insertByCreatedAt v (sortByCreatedAt vs)

/-- The version filter of the resolver's query: `(major, minor, revision)`
strictly above the client's, as the `$or` of the source writes it. -/
def versionAbove (v : VersionRow) (major minor revision : Nat) : Bool :=
  v.major > major || (v.major == major && v.minor > minor) ||
    (v.major == major && v.minor == minor && v.revision > revision)

/-- The category filter of the resolver's files query. -/
def relevantCategory (os texture category : Nat) : Bool :=
  category == 0 || category == PlatformLookup.getD os 99 ||
    category == OperatingSystemLookup.getD os 99 ||
    category == TextureLookup.getD texture 99

/-- One step of the resolver's newest-wins accumulation over the files
cursor: a new `localPath` is inserted; a seen `localPath` is replaced
exactly when the stored owner's `createdAt` is strictly below the
incoming owner's. -/
def dedupStep (m : List (String × VersionRow × FileRow)) (p : VersionRow × FileRow) :
    List (String × VersionRow × FileRow) :=
  if (m.find? (fun e => e.1 == p.2.localPath)).isSome then
    m.map (fun e =>
      if e.1 = p.2.localPath ∧ e.2.1.createdAt < p.1.createdAt
      then (e.1, p) else e)
  else m ++ [(p.2.localPath, p)]

/-- The whole accumulation (`for await (const file of filesCursor) …`). -/
def dedupFold (ps : List (VersionRow × FileRow)) : List (String × VersionRow × FileRow) :=
  ps.foldl dedupStep []

/-- `major.minor.revision`. -/
def versionString (major minor revision : Nat) : String :=
  toString major ++ "." ++ toString minor ++ "." ++ toString revision

/-- The manifest entry built from an accumulated `(version, file)` pair. -/
def manifestFileOf (p : VersionRow × FileRow) : ManifestFile :=
  { UrlPath := upperStr (idStr p.1._id),
    LocalPath := p.2.localPath,
    Filename := p.2.fileName,
    Extension := p.2.extension,
    PackedSize := p.2.packedSize,
    OriginalSize := p.2.fileSize,
    CRC32 := p.2.crc32 }

/-- The resolver's versions query: READY versions strictly above the
client's, sorted ascending by `createdAt`. -/
def resolverVersions (st : St) (major minor revision : Nat) : List VersionRow :=
  sortByCreatedAt (st.versions.filter (fun v =>
    v.state == VersionState.READY && versionAbove v major minor revision))

/-- The resolver's files query paired with the owning version through
`versionsMap`: the relevant rows of the cursor, each with the version
whose `_id` it references. -/
def resolverCandidates (versions : List VersionRow) (os texture : Nat)
    (cursor : List FileRow) : List (VersionRow × FileRow) :=
  (cursor.filter (fun f =>
    (versions.any (fun w => w._id == f.versionId)) &&
      relevantCategory os texture f.category)).filterMap (fun f =>
    (versions.find? (fun w => w._id == f.versionId)).map (fun w => (w, f)))

/-- `getUpdateFiles` (`services/api/update.ts`, first variant), compute
path (the cache read is a memo of a previous identical computation and is
bypassed here).  `cursor` is the `files` collection in the order the
unsorted query yields its rows; the query's filter
(`versionId ∈ versions ∧ category relevant`) is applied to it.  Per the
source: query the READY versions above the client ascending by
`createdAt`; empty ⇒ empty manifest; stream the relevant files, pairing
each with its owner through `versionsMap`; newest-wins dedup; build the
manifest from the accumulated values. -/
def getUpdateFiles (st : St) (major minor revision os texture : Nat)
    (cursor : List FileRow) : Manifest :=
  match resolverVersions st major minor revision with
  | [] => ⟨versionString major minor revision, []⟩
  | v :: vs =>
    let lastVersion := (v :: vs).getLastD v
    let pairs := resolverCandidates (v :: vs) os texture cursor
    ⟨versionString lastVersion.major lastVersion.minor lastVersion.revision,
      (dedupFold pairs).map (fun e => manifestFileOf e.2)⟩

/-- The invariant maintained by the resolver's newest-wins accumulation:
after folding `seen`, the map holds pairwise-distinct `localPath` keys,
each entry is keyed by its file's `localPath` and drawn from `seen`, each
entry's owner has the greatest `createdAt` among the seen pairs sharing
its key, and every seen key is present. -/
def DedupInv (seen : List (VersionRow × FileRow))
    (m : List (String × VersionRow × FileRow)) : Prop :=
  (m.map Prod.fst).Nodup ∧
  (∀ e ∈ m, e.1 = e.2.2.localPath ∧ e.2 ∈ seen) ∧
  (∀ e ∈ m, ∀ p ∈ seen, p.2.localPath = e.1 → p.1.createdAt ≤ e.2.1.createdAt) ∧
  (∀ p ∈ seen, ∃ e ∈ m, e.1 = p.2.localPath)

/-! ## Spec-side predicates and concrete sample states for the theorems -/

/-- The validation conditions of `UploadChunk` as the spec words them
(§4.4): empty buffer; no Upload row for `(upload_id, concurrent_id)`;
`offset ≥ chunks_count`; wrong chunk length — `chunk_size` for a
non-final offset, `file_size - chunk_size*(chunks_count-1)` for the
final one.  Stated over the spec's reading, to be compared with the
behaviour of `uploadVersionChunk`. -/
def specChunkValidationFails (st : St) (uploadId concurrentId offset : Nat)
    (data : List Nat) : Prop :=
  data.length = 0 ∨
  match st.uploads.find? (fun u => u._id == uploadId && u.concurrentId == concurrentId) with
  | none => True
  | some upload =>
      offset ≥ upload.chunksCount ∨
      (offset + 1 = upload.chunksCount ∧
        (upload.fileSize : Int) - upload.chunkSize * ((upload.chunksCount : Int) - 1)
          ≠ (data.length : Int)) ∨
      (offset + 1 ≠ upload.chunksCount ∧ upload.chunkSize ≠ data.length)

/-- The empty system state. -/
def stEmpty : St := ⟨[], [], [], [], [], [], []⟩

/-- A sample upload row: version 5, epoch 2, hash `"aa"`, 10 bytes in
chunks of 4 (3 chunks). -/
def uploadA : UploadRow :=
  ⟨1, 5, 2, .NONE, "aa", "full", 10, 4, 3, 100, 100⟩

/-- A stored chunk row of `uploadA`'s current epoch at offset 0. -/
def chunkA0 : ChunkRow := ⟨1, 2, 0, 4, 100⟩

/-- Sample state: `uploadA` with its offset-0 chunk row stored. -/
def stStart : St := { stEmpty with uploads := [uploadA], chunks := [chunkA0] }

/-- The chunk blob of `chunkA0`, at the Input key of `uploadA`'s epoch. -/
def blobA0 : Blob := ⟨"1/AA/00000000.data", [9, 9, 9, 9]⟩

/-- Sample state for the epoch-change scenario: `uploadA`, its offset-0
chunk row and the chunk's blob. -/
def stEpoch : St := { stStart with inputBlobs := [blobA0] }

/-- `uploadA` once every chunk has arrived (state PENDING). -/
def uploadP : UploadRow := { uploadA with state := .PENDING }

/-- Sample state for the hash-mismatch scenario: the PENDING upload with
its chunk rows and blob. -/
def stC5 : St :=
  { stEmpty with
      uploads := [uploadP], chunks := [chunkA0], inputBlobs := [blobA0] }

/-- A two-chunk upload of the two-byte file `[1, 2]`, declared hash
`"h12"`, ready for reassembly. -/
def uploadB : UploadRow := ⟨1, 5, 2, .PENDING, "h12", "full", 2, 1, 2, 100, 100⟩

/-- Sample state for the reassembly scenario: `uploadB` with its two
chunk blobs, byte `[1]` at offset 0 and byte `[2]` at offset 1. -/
def stC4 : St :=
  { stEmpty with
      uploads := [uploadB]
      inputBlobs := [⟨"1/H12/00000000.data", [1]⟩, ⟨"1/H12/00000001.data", [2]⟩] }

/-- A hash oracle under which the two-byte file `[1, 2]` hashes to
`uploadB`'s declared hash and any other assembly does not. -/
def hashB (bytes : List Nat) : String := if bytes = [1, 2] then "h12" else "bad"

/-- A version document sitting in PROCESSING, about to be committed. -/
def versionP : VersionRow := ⟨7, 1, 0, 0, "v1", .PROCESSING, 50, 50⟩

/-- An `UpdateFile` row of `versionP`. -/
def fileRowP : FileRow := ⟨7, 0, "AB_11", ".eupdz", "general/a.png", 3, 5, "11", 60⟩

/-- Sample state for the publish-commit scenario. -/
def stTx : St := { stEmpty with versions := [versionP] }

/-- A live Reassemble job for `(version 5, upload 1, epoch 2)`. -/
def jobLive : QJob := ⟨reassembleJobId 5 1 2, .processUpload 5 1 2, .live⟩

/-- A READY version 1.0.0 created at time 10. -/
def vR1 : VersionRow := ⟨101, 1, 0, 0, "a", .READY, 10, 10⟩

/-- A READY version 1.0.1 created at time 20. -/
def vR2 : VersionRow := ⟨102, 1, 0, 1, "b", .READY, 20, 20⟩

/-- A General file of `vR1` at `local_path` `x`. -/
def fR1 : FileRow := ⟨101, 0, "F1", ".eupdz", "x", 1, 1, "c1", 10⟩

/-- A General file of `vR2` at the same `local_path` `x`. -/
def fR2 : FileRow := ⟨102, 0, "F2", ".eupdz", "x", 1, 1, "c2", 20⟩

/-- Sample state for the resolver scenario: two READY versions, each
publishing a file at the same `local_path`. -/
def stC6 : St := { stEmpty with versions := [vR1, vR2], files := [fR1, fR2] }

end NextMU

/-! # Theorems -/

namespace NextMU

/-- **C7.** `uploadVersionChunk` raises a `BAD_REQUEST` error exactly when
one of the spec's validations fails — the data buffer is empty, no Upload
row matches `(upload_id, concurrent_id)`, `offset ≥ chunks_count`, or the
chunk length is wrong for its position; when none fails the call returns
the accept path's result (blob write, chunk upsert, count, CAS, enqueue),
so nothing is written before the validations pass. -/
theorem uploadVersionChunk_error_iff_validation (st : St)
    (uploadId concurrentId offset : Nat) (data : List Nat) (now : Nat) :
    ((∃ e, uploadVersionChunk st uploadId concurrentId offset data now = .error e) ↔
      specChunkValidationFails st uploadId concurrentId offset data) ∧
    (¬ specChunkValidationFails st uploadId concurrentId offset data →
      ∃ upload,
        st.uploads.find? (fun u => u._id == uploadId && u.concurrentId == concurrentId)
          = some upload ∧
        uploadVersionChunk st uploadId concurrentId offset data now
          = .ok (acceptChunk st upload uploadId concurrentId offset data now)) := by
  unfold uploadVersionChunk specChunkValidationFails
  by_cases h0 : data.length = 0
  · simp [h0]
  · simp only [h0, if_false, false_or]
    cases hf : st.uploads.find?
        (fun u => u._id == uploadId && u.concurrentId == concurrentId) with
    | none => simp
    | some upload =>
      simp only []
      by_cases hoff : offset ≥ upload.chunksCount
      · have : ¬ (offset + 1 = upload.chunksCount) := by omega
        simp [hoff, this, Nat.le_of_succ_le_succ]
      · have hlt : offset < upload.chunksCount := Nat.lt_of_not_le hoff
        by_cases hfin : (offset : Int) = (upload.chunksCount : Int) - 1
        · have hfin' : offset + 1 = upload.chunksCount := by omega
          by_cases hsz : (upload.fileSize : Int) -
              upload.chunkSize * ((upload.chunksCount : Int) - 1) ≠ (data.length : Int)
          · simp [hoff, hfin, hfin', hsz]
          · simp [hoff, hfin, hfin', hsz]
        · have hfin' : ¬ (offset + 1 = upload.chunksCount) := by omega
          by_cases hsz : upload.chunkSize ≠ data.length
          · simp [hoff, hfin, hfin', hsz]
          · simp [hoff, hfin, hfin', hsz]

/-- Closed instance of the C7 theorem: on the empty state with an empty
buffer the call reports a validation error. -/
theorem uploadVersionChunk_error_iff_validation_instance :
    ∃ e, uploadVersionChunk stEmpty 1 1 0 [] 0 = .error e :=
  (uploadVersionChunk_error_iff_validation stEmpty 1 1 0 [] 0).1.mpr (Or.inl rfl)

/-- `updateFirst` rewrites exactly the first match of its predicate: if
`a` is the first `q`-match of `l`, `p` refines `q`, `p` holds at `a` and
`f` preserves `q`, then the first `q`-match of the updated list is
`f a`. -/
theorem find?_updateFirst_of_refines {α : Type} (q p : α → Bool) (f : α → α)
    (l : List α) (a : α) (hq : l.find? q = some a)
    (hpq : ∀ x, p x = true → q x = true)
    (hpa : p a = true) (hfa : q (f a) = true) :
    (updateFirst p f l).find? q = some (f a) := by
  induction l with
  | nil => simp at hq
  | cons x xs ih =>
    by_cases hx : q x
    · rw [List.find?_cons_of_pos _ hx] at hq
      injection hq with hq; subst hq
      rw [updateFirst, if_pos hpa, List.find?_cons_of_pos _ hfa]
    · have hpx : ¬ p x = true := fun h => hx (hpq x h)
      rw [List.find?_cons_of_neg _ hx] at hq
      rw [updateFirst, if_neg hpx, List.find?_cons_of_neg _ hx]
      exact ih hq

/-- `updateFirst` does not touch anything before the first match of its
predicate: if `a` is the first `q`-match of `l`, `p` refines `q` and `p`
fails at `a`, the first `q`-match is unchanged. -/
theorem find?_updateFirst_of_not_pred {α : Type} (q p : α → Bool) (f : α → α)
    (l : List α) (a : α) (hq : l.find? q = some a)
    (hpq : ∀ x, p x = true → q x = true)
    (hpa : ¬ p a = true) :
    (updateFirst p f l).find? q = some a := by
  induction l with
  | nil => simp at hq
  | cons x xs ih =>
    by_cases hx : q x
    · rw [List.find?_cons_of_pos _ hx] at hq
      injection hq with hq; subst hq
      rw [updateFirst, if_neg hpa, List.find?_cons_of_pos _ hx]
    · have hpx : ¬ p x = true := fun h => hx (hpq x h)
      rw [List.find?_cons_of_neg _ hx] at hq
      rw [updateFirst, if_neg hpx, List.find?_cons_of_neg _ hx]
      exact ih hq

/-- **C9.** `StartUpload` with the stored `(hash, chunk_size)` is
idempotent: the reply carries the stored `upload_id` and `concurrent_id`,
the pipeline keeps `state` and `updated_at` (only `fileSize` and
`chunksCount` are refreshed), no chunk row or blob is deleted, and the
reply's `missing_ranges` are recomputed from the currently stored chunk
offsets of the upload. -/
theorem startUploadVersion_idempotent (st : St) (id : Nat) (hash typ : String)
    (chunkSize fileSize freshUploadId freshConcurrentId now : Nat) (u : UploadRow)
    (hfind : st.uploads.find? (fun w => w.versionId == id) = some u)
    (hh : u.hash = hash) (hc : u.chunkSize = chunkSize) :
    startUploadVersion st id hash typ chunkSize fileSize freshUploadId freshConcurrentId now
      = ({ st with uploads :=
            (updateFirst (fun w => w.versionId == id)
              (fun _ => { u with hash := hash, chunkSize := chunkSize,
                                 fileSize := fileSize,
                                 chunksCount := ceilDiv fileSize chunkSize })
              st.uploads) },
          ⟨u._id, u.concurrentId,
            getMissingRanges
              ((st.chunks.filter (fun c => c.uploadId == u._id)).map ChunkRow.offset)
              (ceilDiv fileSize chunkSize)⟩) := by
  unfold startUploadVersion
  rw [hfind]
  have hsame : u.hash = hash ∧ u.chunkSize = chunkSize := ⟨hh, hc⟩
  have hne : ¬ (u.hash ≠ hash ∨ u.chunkSize ≠ chunkSize) := by
    push_neg; exact hsame
  simp only [startUploadPipeline, if_pos hsame, if_neg hne]

/-- Closed instance of the C9 theorem: re-invoking `StartUpload` on
`stStart` with the stored `("aa", 4)` keeps ids, state and `updatedAt`
and reports offsets 1–2 as missing. -/
theorem startUploadVersion_idempotent_instance :
    startUploadVersion stStart 5 "aa" "full" 4 10 77 88 999
      = ({ stStart with uploads :=
            (updateFirst (fun w => w.versionId == 5)
              (fun _ => { uploadA with hash := "aa", chunkSize := 4,
                                       fileSize := 10,
                                       chunksCount := ceilDiv 10 4 })
              stStart.uploads) },
          ⟨uploadA._id, uploadA.concurrentId,
            getMissingRanges
              ((stStart.chunks.filter (fun c => c.uploadId == uploadA._id)).map
                ChunkRow.offset)
              (ceilDiv 10 4)⟩) ∧
    (startUploadVersion stStart 5 "aa" "full" 4 10 77 88 999).2
      = ⟨1, 2, [(1, 2)]⟩ := by
  refine ⟨startUploadVersion_idempotent stStart 5 "aa" "full" 4 10 77 88 999 uploadA
    (by decide) rfl rfl, ?_⟩
  decide

/-- **C2, evaluated at the failing input.**  On `stEpoch` (upload 1 of
version 5, epoch 2, hash `"aa"`, one stored chunk at offset 0 with its
blob), `StartUpload` with the changed hash `"bb"` does rotate the stored
`concurrent_id` and reset `state`, but: the old epoch's chunk row
survives (the `deleteMany` filters on the freshly generated
`concurrentId`), the old chunk blob survives (the `deleteFolder` prefix
is built from the version id and the *new* hash), the reply's
`missing_ranges` is `[(1, 2)]` rather than the full `[(0, 2)]`, and the
reply even carries the pre-rotation `concurrent_id`. -/
theorem startUploadVersion_changed_hash_stale_epoch :
    (startUploadVersion stEpoch 5 "bb" "full" 4 10 77 88 999).1.chunks = [chunkA0] ∧
    (startUploadVersion stEpoch 5 "bb" "full" 4 10 77 88 999).1.inputBlobs = [blobA0] ∧
    (startUploadVersion stEpoch 5 "bb" "full" 4 10 77 88 999).1.uploads
      = [{ uploadA with concurrentId := 88, state := .NONE, hash := "bb",
                        updatedAt := 999 }] ∧
    (startUploadVersion stEpoch 5 "bb" "full" 4 10 77 88 999).2.missingRanges
      = [(1, 2)] ∧
    (startUploadVersion stEpoch 5 "bb" "full" 4 10 77 88 999).2.missingRanges
      ≠ [(0, 2)] ∧
    (startUploadVersion stEpoch 5 "bb" "full" 4 10 77 88 999).2.concurrentId = 2 := by
  decide

/-- **C10.** Worker jobs whose preconditions fail complete as silent
no-ops: a ProcessPublish job for an absent or already-READY version, and
a ProcessUpload job whose `(upload_id, concurrent_id)` row is absent or
owned by another version, return `.ok` with the state untouched — no
version, upload, chunk, file row or blob is modified and no error is
raised. -/
theorem worker_jobs_noop_without_preconditions
    (unzip : List Nat → List Entry) (crcFn deflateLen : List Nat → Nat)
    (freshName : Nat → String) (now : Nat) (commitOk : Bool)
    (hashFn : List Nat → String)
    (reorder : List (String × List Nat) → List (String × List Nat))
    (st : St) (pvid vid uploadId concurrentId : Nat) :
    ((st.versions.find? (fun v => v._id == pvid) = none ∨
        (∃ v, st.versions.find? (fun v => v._id == pvid) = some v ∧
          v.state = .READY)) →
      processPublishVersion unzip crcFn deflateLen freshName now commitOk st pvid
        = .ok st) ∧
    ((st.uploads.find?
        (fun u => u._id == uploadId && u.concurrentId == concurrentId) = none ∨
        (∃ u, st.uploads.find?
            (fun u => u._id == uploadId && u.concurrentId == concurrentId) = some u ∧
          u.versionId ≠ vid)) →
      processUploadVersion hashFn reorder st vid uploadId concurrentId = .ok st) := by
  constructor
  · rintro (hnone | ⟨v, hv, hready⟩)
    · unfold processPublishVersion
      rw [hnone]
    · unfold processPublishVersion
      rw [hv]
      simp [hready]
  · rintro (hnone | ⟨u, hu, hver⟩)
    · unfold processUploadVersion
      rw [hnone]
    · unfold processUploadVersion
      rw [hu]
      simp [hver]

/-- Closed instance of the C10 theorem: on the empty state both job kinds
return with the state unchanged. -/
theorem worker_jobs_noop_without_preconditions_instance :
    processPublishVersion (fun _ => []) (fun _ => 0) (fun _ => 0) (fun _ => "")
        0 true stEmpty 3 = .ok stEmpty ∧
    processUploadVersion (fun _ => "") (fun l => l) stEmpty 3 1 2 = .ok stEmpty := by
  have h := worker_jobs_noop_without_preconditions (fun _ => []) (fun _ => 0)
    (fun _ => 0) (fun _ => "") 0 true (fun _ => "") (fun l => l) stEmpty 3 3 1 2
  exact ⟨h.1 (Or.inl rfl), h.2 (Or.inl rfl)⟩

/-- **C5.** A ProcessUpload job whose assembled bytes hash differently
from the declared `upload.hash` returns without advancing the upload
state: the only effect is the earlier `PENDING → PROCESSING` CAS, so the
upload remains PROCESSING, no CAS to READY happens, the assembled zip is
not uploaded, and the chunk rows and chunk blobs survive. -/
theorem processUploadVersion_hash_mismatch (hashFn : List Nat → String)
    (reorder : List (String × List Nat) → List (String × List Nat))
    (st : St) (versionId uploadId concurrentId : Nat) (u : UploadRow)
    (hfind : st.uploads.find?
      (fun w => w._id == uploadId && w.concurrentId == concurrentId) = some u)
    (hver : u.versionId = versionId)
    (hmis : hashFn (assembleBytes (reorder (downloadFolderBlobs st.inputBlobs
      (getInputFolder (idStr uploadId) u.hash (idStr concurrentId))))) ≠ u.hash) :
    processUploadVersion hashFn reorder st versionId uploadId concurrentId
      = .ok (setUploadState st uploadId concurrentId .PROCESSING (some .PENDING)) ∧
    (setUploadState st uploadId concurrentId .PROCESSING (some .PENDING)).chunks
      = st.chunks ∧
    (setUploadState st uploadId concurrentId .PROCESSING (some .PENDING)).inputBlobs
      = st.inputBlobs ∧
    (u.state = .PENDING ∨ u.state = .PROCESSING →
      ∃ w, (setUploadState st uploadId concurrentId .PROCESSING
          (some .PENDING)).uploads.find?
          (fun w => w._id == uploadId && w.concurrentId == concurrentId) = some w ∧
        w.state = .PROCESSING) := by
  have hqu := List.find?_some hfind
  simp only [] at hqu
  refine ⟨?_, rfl, rfl, ?_⟩
  · unfold processUploadVersion
    rw [hfind]
    simp only [hver, ne_eq, not_true_eq_false, if_false]
    exact if_pos hmis
  · intro hstate
    cases hstate with
    | inl hpend =>
      refine ⟨{ u with state := .PROCESSING }, ?_, rfl⟩
      show (updateFirst
          (fun w => w._id == uploadId && w.concurrentId == concurrentId &&
            (w.state == UploadState.PENDING))
          (fun w => { w with state := .PROCESSING }) st.uploads).find?
          (fun w => w._id == uploadId && w.concurrentId == concurrentId)
        = some { u with state := .PROCESSING }
      apply find?_updateFirst_of_refines _ _ _ _ _ hfind
      · intro x hx
        simp only [Bool.and_eq_true] at hx
        simp only [Bool.and_eq_true]
        exact hx.1
      · simp only [Bool.and_eq_true] at hqu ⊢
        exact ⟨hqu, by simp [hpend]⟩
      · exact hqu
    | inr hproc =>
      refine ⟨u, ?_, hproc⟩
      show (updateFirst
          (fun w => w._id == uploadId && w.concurrentId == concurrentId &&
            (w.state == UploadState.PENDING))
          (fun w => { w with state := .PROCESSING }) st.uploads).find?
          (fun w => w._id == uploadId && w.concurrentId == concurrentId)
        = some u
      apply find?_updateFirst_of_not_pred _ _ _ _ _ hfind
      · intro x hx
        simp only [Bool.and_eq_true] at hx
        simp only [Bool.and_eq_true]
        exact hx.1
      · simp only [Bool.and_eq_true, not_and]
        intro _
        simp [hproc]

/-- Closed instance of the C5 theorem: on `stC5` a hash oracle returning
`"zz"` (≠ the declared `"aa"`) leaves the upload PROCESSING with chunks
and blobs intact. -/
theorem processUploadVersion_hash_mismatch_instance :
    processUploadVersion (fun _ => "zz") (fun l => l) stC5 5 1 2
      = .ok (setUploadState stC5 1 2 .PROCESSING (some .PENDING)) ∧
    (∃ w, (setUploadState stC5 1 2 .PROCESSING (some .PENDING)).uploads.find?
        (fun w => w._id == 1 && w.concurrentId == 2) = some w ∧
      w.state = .PROCESSING) := by
  have h := processUploadVersion_hash_mismatch (fun _ => "zz") (fun l => l)
    stC5 5 1 2 uploadP (by decide) (by decide) (by decide)
  exact ⟨h.1, h.2.2.2 (Or.inl rfl)⟩

/-- **C4, evaluated at the failing input.**  The worker concatenates the
downloaded chunk files in the order `enumerateFiles` yields them and
never sorts: on `stC4` (chunks `[1]` at offset 0 and `[2]` at offset 1)
an enumeration in reversed order assembles `[2, 1]`, not the
offset-sorted `[1, 2]`; the run then trips the hash check and wedges the
upload in PROCESSING with no assembled zip uploaded, while the same state
under the sorted enumeration commits READY and uploads `[1, 2]`. -/
theorem processUploadVersion_enumeration_order_sensitive :
    assembleBytes (List.reverse (downloadFolderBlobs stC4.inputBlobs
        (getInputFolder (idStr 1) "h12" (idStr 2))))
      ≠ offsetSortedBytes [(0, [1]), (1, [2])] ∧
    assembleBytes (downloadFolderBlobs stC4.inputBlobs
        (getInputFolder (idStr 1) "h12" (idStr 2)))
      = offsetSortedBytes [(0, [1]), (1, [2])] ∧
    (exOk? (processUploadVersion hashB (fun l => l) stC4 5 1 2)).map
        (fun s => getBlob s.inputBlobs "5.zip") = some (some [1, 2]) ∧
    (exOk? (processUploadVersion hashB (fun l => l) stC4 5 1 2)).map
        (fun s => s.uploads.map UploadRow.state) = some [.READY] ∧
    (exOk? (processUploadVersion hashB List.reverse stC4 5 1 2)).map
        (fun s => getBlob s.inputBlobs "5.zip") = some none ∧
    (exOk? (processUploadVersion hashB List.reverse stC4 5 1 2)).map
        (fun s => s.uploads.map UploadRow.state) = some [.PROCESSING] := by
  exact ⟨by decide, by decide, by decide, by decide, by decide, by decide⟩

/-- **C1.** The publish commit is atomic: a successful commit yields a
state holding every inserted `UpdateFile` row together with the
`PROCESSING → READY` CAS; an aborted commit yields an error and no state,
so any observer still reads the pre-transaction state, where the version
remains PROCESSING; and a ProcessPublish run whose transaction cannot
commit never returns a modified state. -/
theorem publish_commit_atomic (st : St) (rows : List FileRow) (versionId : Nat)
    (v : VersionRow)
    (hfind : st.versions.find? (fun w => w._id == versionId) = some v)
    (hproc : v.state = .PROCESSING) :
    (∀ st', runPublishTxn st rows versionId true = .ok st' →
        (∀ r ∈ rows, r ∈ st'.files) ∧
        ∃ w, st'.versions.find? (fun w => w._id == versionId) = some w ∧
          w.state = .READY) ∧
    (runPublishTxn st rows versionId false = .error "transaction aborted" ∧
      ∃ w, st.versions.find? (fun w => w._id == versionId) = some w ∧
        w.state = .PROCESSING) ∧
    (∀ (unzip : List Nat → List Entry) (crcFn deflateLen : List Nat → Nat)
        (freshName : Nat → String) (now : Nat) (st' : St),
      processPublishVersion unzip crcFn deflateLen freshName now false st versionId
          = .ok st' → st' = st) := by
  have hqv := List.find?_some hfind
  simp only [] at hqv
  refine ⟨?_, ⟨rfl, v, hfind, hproc⟩, ?_⟩
  · intro st' h
    have hst' : st' = publishTxnBody st rows versionId := by
      unfold runPublishTxn at h
      simp only [if_pos] at h
      exact (Except.ok.injEq _ _).mp h.symm ▸ rfl
    subst hst'
    constructor
    · intro r hr
      show r ∈ st.files ++ rows
      exact List.mem_append_right _ hr
    · refine ⟨{ v with state := .READY }, ?_, rfl⟩
      show (updateFirst
          (fun w => w._id == versionId && (w.state == VersionState.PROCESSING))
          (fun w => { w with state := .READY }) st.versions).find?
          (fun w => w._id == versionId)
        = some { v with state := .READY }
      apply find?_updateFirst_of_refines _ _ _ _ _ hfind
      · intro x hx
        simp only [Bool.and_eq_true] at hx
        exact hx.1
      · simp only [Bool.and_eq_true]
        exact ⟨hqv, by simp [hproc]⟩
      · exact hqv
  · intro unzip crcFn deflateLen freshName now st' h
    unfold processPublishVersion at h
    split at h
    · exact ((Except.ok.injEq _ _).mp h).symm
    · split at h
      · exact ((Except.ok.injEq _ _).mp h).symm
      · split at h
        · exact absurd h (by simp)
        · split at h
          · exact absurd h (by simp)
          · simp [runPublishTxn] at h

/-- Closed instance of the C1 theorem: committing `fileRowP` for
`versionP` makes the row visible and the version READY; aborting reports
the error with `versionP` still PROCESSING. -/
theorem publish_commit_atomic_instance :
    (fileRowP ∈ (publishTxnBody stTx [fileRowP] 7).files ∧
      ∃ w, (publishTxnBody stTx [fileRowP] 7).versions.find?
          (fun w => w._id == 7) = some w ∧ w.state = .READY) ∧
    runPublishTxn stTx [fileRowP] 7 false = .error "transaction aborted" := by
  have h := publish_commit_atomic stTx [fileRowP] 7 versionP (by decide) rfl
  obtain ⟨hok, ⟨herr, _⟩, _⟩ := h
  have h2 := hok (publishTxnBody stTx [fileRowP] 7) rfl
  exact ⟨⟨h2.1 fileRowP (by simp), h2.2⟩, herr⟩

/-- **C8.** For every accepted chunk upload (the accept path entered after
the validations, see the C7 theorem): the chunk-row upsert is idempotent
on its `(upload_id, concurrent_id, offset)` key; the reply is
`{finished: count == chunks_count}`; exactly when the stored count of the
epoch's rows reaches `chunks_count` the upload is compare-and-set
`NONE → PENDING` and the Reassemble job with id
`version-{version_id}-{upload_id}-{concurrent_id}` is enqueued; a live
job with that id is left alone, a failed one is removed and re-enqueued,
and an absent one is enqueued. -/
theorem acceptChunk_finished_and_enqueue :
    (∀ (rows : List ChunkRow) (r : ChunkRow),
      chunkUpsert (chunkUpsert rows r) r = chunkUpsert rows r) ∧
    (∀ (st : St) (upload : UploadRow) (uploadId concurrentId offset : Nat)
        (data : List Nat) (now : Nat),
      ((acceptChunk st upload uploadId concurrentId offset data now).2.finished = true
        ↔ upload.chunksCount
            = ((chunkUpsert st.chunks ⟨uploadId, concurrentId, offset, data.length, now⟩).filter
                (fun c => c.uploadId == uploadId && c.concurrentId == concurrentId)).length) ∧
      (upload.chunksCount
          = ((chunkUpsert st.chunks ⟨uploadId, concurrentId, offset, data.length, now⟩).filter
              (fun c => c.uploadId == uploadId && c.concurrentId == concurrentId)).length →
        (acceptChunk st upload uploadId concurrentId offset data now).1.uploads
            = (setUploadState st uploadId concurrentId .PENDING (some .NONE)).uploads ∧
        (acceptChunk st upload uploadId concurrentId offset data now).1.queue
            = processUpdateFile st.queue upload.versionId uploadId concurrentId) ∧
      (upload.chunksCount
          ≠ ((chunkUpsert st.chunks ⟨uploadId, concurrentId, offset, data.length, now⟩).filter
              (fun c => c.uploadId == uploadId && c.concurrentId == concurrentId)).length →
        (acceptChunk st upload uploadId concurrentId offset data now).1.uploads
            = st.uploads ∧
        (acceptChunk st upload uploadId concurrentId offset data now).1.queue
            = st.queue)) ∧
    (∀ (q : List QJob) (versionId uploadId concurrentId : Nat) (j : QJob),
      q.find? (fun j => j.id == reassembleJobId versionId uploadId concurrentId) = some j →
      j.status = .live →
      processUpdateFile q versionId uploadId concurrentId = q) ∧
    (∀ (q : List QJob) (versionId uploadId concurrentId : Nat) (j : QJob),
      q.find? (fun j => j.id == reassembleJobId versionId uploadId concurrentId) = some j →
      j.status = .failed →
      processUpdateFile q versionId uploadId concurrentId
        = (q.filter (fun j' => j'.id != reassembleJobId versionId uploadId concurrentId))
            ++ [⟨reassembleJobId versionId uploadId concurrentId,
                 .processUpload versionId uploadId concurrentId, .live⟩]) ∧
    (∀ (q : List QJob) (versionId uploadId concurrentId : Nat),
      q.find? (fun j => j.id == reassembleJobId versionId uploadId concurrentId) = none →
      processUpdateFile q versionId uploadId concurrentId
        = q ++ [⟨reassembleJobId versionId uploadId concurrentId,
                 .processUpload versionId uploadId concurrentId, .live⟩]) := by
  refine ⟨?_, ?_, ?_, ?_, ?_⟩
  · intro rows r
    unfold chunkUpsert
    by_cases h : rows.any (fun c => c.uploadId == r.uploadId &&
        c.concurrentId == r.concurrentId && c.offset == r.offset)
    · simp [h]
    · simp [h, List.any_append]
  · intro st upload uploadId concurrentId offset data now
    refine ⟨?_, ?_, ?_⟩
    · unfold acceptChunk
      by_cases h : upload.chunksCount
          = ((chunkUpsert st.chunks ⟨uploadId, concurrentId, offset, data.length, now⟩).filter
              (fun c => c.uploadId == uploadId && c.concurrentId == concurrentId)).length
      · simp [h]
      · simp [h]
    · intro h
      unfold acceptChunk
      simp [h, setUploadState]
    · intro h
      unfold acceptChunk
      simp [h]
  · intro q versionId uploadId concurrentId j hfind hlive
    simp only [processUpdateFile]
    rw [hfind]
    simp [hlive]
  · intro q versionId uploadId concurrentId j hfind hfailed
    simp only [processUpdateFile]
    rw [hfind]
    simp [hfailed]
  · intro q versionId uploadId concurrentId hfind
    simp only [processUpdateFile]
    rw [hfind]

/-- Closed instance of the C8 theorem: a repeated upsert of `chunkA0` is
a no-op; a live Reassemble job for `(5, 1, 2)` is not enqueued twice; on
`stC5` (two of three chunks stored) accepting the offset-1 chunk leaves
the reply unfinished and the queue untouched. -/
theorem acceptChunk_finished_and_enqueue_instance :
    chunkUpsert (chunkUpsert [] chunkA0) chunkA0 = chunkUpsert [] chunkA0 ∧
    processUpdateFile [jobLive] 5 1 2 = [jobLive] ∧
    (acceptChunk stC5 uploadP 1 2 1 [7, 7, 7, 7] 0).1.queue = stC5.queue := by
  refine ⟨acceptChunk_finished_and_enqueue.1 [] chunkA0,
    acceptChunk_finished_and_enqueue.2.2.1 [jobLive] 5 1 2 jobLive (by decide) rfl,
    ((acceptChunk_finished_and_enqueue.2.1 stC5 uploadP 1 2 1 [7, 7, 7, 7] 0).2.2
      (by decide)).2⟩

/-- No category folder's `{folder}/` prefix is a prefix of another's:
the thirteen modelled regexes are mutually exclusive. -/
theorem incomingFolders_prefix_disjoint :
    ∀ i ∈ List.range incomingFolders.length, ∀ j ∈ List.range incomingFolders.length,
      ((incomingFolders.getD i "" ++ "/").toList.isPrefixOf
        ((incomingFolders.getD j "" ++ "/").toList)) = true → i = j := by
  decide

/-- The modelled regex table holds, at each category index, exactly the
singleton of that category's folder. -/
theorem incomingFoldersRegexes_getD :
    ∀ n ∈ List.range incomingFolders.length,
      incomingFoldersRegexes.getD n [] = [incomingFolders.getD n ""] := by
  decide

/-- `matchRegexes` against a one-regex list is that regex's match. -/
theorem matchRegexes_singleton (path f : String) :
    matchRegexes path [f] = matchRegex f path := by
  unfold matchRegexes
  cases h : matchRegex f path <;> simp [matchRegexes, h]

/-- A modelled regex matches exactly the paths under its folder. -/
theorem matchRegex_isSome (f path : String) :
    (matchRegex f path).isSome = (f ++ "/").toList.isPrefixOf path.toList := by
  cases hb : (f ++ "/").toList.isPrefixOf path.toList with
  | false =>
    simp [matchRegex, hb]
    intro hc
    rw [← List.isPrefixOf_iff_prefix] at hc
    simp at hb
    rw [hc] at hb
    exact Bool.true_eq_false.mp hb
  | true =>
    simp [matchRegex, hb]
    simp at hb
    exact hb

/-- Category `n`'s regex list matches a path exactly when the path lives
under folder `n`. -/
theorem matchRegexes_getD_isSome (path : String) (n : Nat)
    (hn : n < incomingFolders.length) :
    (matchRegexes path (incomingFoldersRegexes.getD n [])).isSome
      = ((incomingFolders.getD n "" ++ "/").toList.isPrefixOf path.toList) := by
  rw [incomingFoldersRegexes_getD n (List.mem_range.mpr hn), matchRegexes_singleton,
    matchRegex_isSome]

/-- A `filterMap` over a duplicate-free list on which at most one element
produces a value yields at most one value. -/
theorem filterMap_length_le_one {α β : Type} (l : List α) (g : α → Option β)
    (hnd : l.Nodup)
    (huniq : ∀ a ∈ l, ∀ b ∈ l, (g a).isSome = true → (g b).isSome = true → a = b) :
    (l.filterMap g).length ≤ 1 := by
  induction l with
  | nil => simp
  | cons x xs ih =>
    rw [List.filterMap_cons]
    cases hg : g x with
    | none =>
      exact ih (List.Nodup.of_cons hnd) (fun a ha b hb hga hgb =>
        huniq a (List.mem_cons_of_mem _ ha) b (List.mem_cons_of_mem _ hb) hga hgb)
    | some y =>
      have hnil : xs.filterMap g = [] := by
        rw [List.filterMap_eq_nil_iff]
        intro a ha
        by_contra hne
        have hsome : (g a).isSome = true := Option.ne_none_iff_isSome.mp hne
        have hax : a = x := huniq a (List.mem_cons_of_mem _ ha) x
          (List.mem_cons_self _ _) hsome (by simp [hg])
        subst hax
        exact (List.nodup_cons.mp hnd).1 ha
      simp [hnil]

/-- **C3.** Under the spec-modelled regex table every enumerated file is
assigned to at most one category even though the classification loop has
no break after a match: the thirteen anchored folder regexes are mutually
exclusive, so a matched file is recorded and counted in `filesCount`
exactly once, and a file matching no regex contributes nothing and raises
nothing (`filesCount` is the sum over the enumerated files of their
per-file record counts). -/
theorem classification_single_category :
    (∀ path : String, (classifyFile path).length ≤ 1) ∧
    (∀ path : String, ((classifyFile path).length = 1 ↔
      ∃ n, n < incomingFolders.length ∧
        (matchRegexes path (incomingFoldersRegexes.getD n [])).isSome = true)) ∧
    (∀ entries : List Entry,
      (classifyAll entries).length
        = (entries.map (fun e => (classifyFile e.path).length)).sum) := by
  have hle : ∀ path : String, (classifyFile path).length ≤ 1 := by
    intro path
    apply filterMap_length_le_one
    · exact List.nodup_reverse.mpr (List.nodup_range _)
    · intro a ha b hb hga hgb
      rw [List.mem_reverse, List.mem_range] at ha hb
      rw [Option.isSome_map'] at hga hgb
      rw [matchRegexes_getD_isSome path a ha] at hga
      rw [matchRegexes_getD_isSome path b hb] at hgb
      have hpa := List.isPrefixOf_iff_prefix.mp hga
      have hpb := List.isPrefixOf_iff_prefix.mp hgb
      cases List.prefix_or_prefix_of_prefix hpa hpb with
      | inl hab =>
        exact incomingFolders_prefix_disjoint a (List.mem_range.mpr ha) b
          (List.mem_range.mpr hb) (List.isPrefixOf_iff_prefix.mpr hab)
      | inr hba =>
        exact (incomingFolders_prefix_disjoint b (List.mem_range.mpr hb) a
          (List.mem_range.mpr ha) (List.isPrefixOf_iff_prefix.mpr hba)).symm
  refine ⟨hle, ?_, ?_⟩
  · intro path
    constructor
    · intro h1
      have hne : classifyFile path ≠ [] := by
        intro hcontra
        rw [hcontra] at h1
        simp at h1
      obtain ⟨pair, hpair⟩ := List.exists_mem_of_ne_nil _ hne
      obtain ⟨n, hn, hgn⟩ := List.mem_filterMap.mp hpair
      rw [List.mem_reverse, List.mem_range] at hn
      refine ⟨n, hn, ?_⟩
      have hsome : (Option.map (fun m => (n, m))
          (matchRegexes path (incomingFoldersRegexes.getD n []))).isSome = true := by
        rw [hgn]
        rfl
      rwa [Option.isSome_map'] at hsome
    · rintro ⟨n, hn, hsome⟩
      have hne : classifyFile path ≠ [] := by
        intro hcontra
        unfold classifyFile at hcontra
        rw [List.filterMap_eq_nil_iff] at hcontra
        have hmem : n ∈ (List.range incomingFolders.length).reverse := by
          rw [List.mem_reverse]
          exact List.mem_range.mpr hn
        have hx := hcontra n hmem
        rw [Option.map_eq_none'] at hx
        rw [hx] at hsome
        simp at hsome
      have hpos : 0 < (classifyFile path).length := List.length_pos.mpr hne
      have := hle path
      omega
  · intro entries
    unfold classifyAll
    rw [List.flatMap]
    rw [List.length_flatten, List.map_map]
    have hmaps : (List.map
          (List.length ∘ fun e => List.map (fun c => (e, c)) (classifyFile e.path))
          entries)
        = List.map (fun e => (classifyFile e.path).length) entries := by
      apply List.map_congr_left
      intro e _
      simp
    rw [hmaps]

/-- Closed instance of the C3 theorem: `windows/a.dll` is recorded once
(category index 8, capture `a.dll`), a path under no category folder is
dropped. -/
theorem classification_single_category_instance :
    (classifyFile "windows/a.dll").length ≤ 1 ∧
    classifyFile "windows/a.dll" = [(8, "a.dll")] ∧
    classifyFile "other/a.dll" = [] := by
  exact ⟨classification_single_category.1 "windows/a.dll", by decide, by decide⟩

/-- One step of the newest-wins accumulation preserves its invariant. -/
theorem dedupStep_inv (seen : List (VersionRow × FileRow))
    (m : List (String × VersionRow × FileRow)) (p : VersionRow × FileRow)
    (h : DedupInv seen m) : DedupInv (seen ++ [p]) (dedupStep m p) := by
  obtain ⟨hnd, hkey, hmax, hcov⟩ := h
  unfold dedupStep
  by_cases hfind : (m.find? (fun e => e.1 == p.2.localPath)).isSome = true
  · rw [if_pos hfind]
    have hfst : ∀ e : String × VersionRow × FileRow,
        (if e.1 = p.2.localPath ∧ e.2.1.createdAt < p.1.createdAt
         then (e.1, p) else e).1 = e.1 := by
      intro e
      by_cases hc : e.1 = p.2.localPath ∧ e.2.1.createdAt < p.1.createdAt
      · rw [if_pos hc]
      · rw [if_neg hc]
    refine ⟨?_, ?_, ?_, ?_⟩
    · have hm : (m.map (fun e =>
          if e.1 = p.2.localPath ∧ e.2.1.createdAt < p.1.createdAt
          then (e.1, p) else e)).map Prod.fst = m.map Prod.fst := by
        rw [List.map_map]
        apply List.map_congr_left
        intro e _
        exact hfst e
      rw [hm]
      exact hnd
    · intro e' he'
      obtain ⟨e, he, hmap⟩ := List.mem_map.mp he'
      by_cases hc : e.1 = p.2.localPath ∧ e.2.1.createdAt < p.1.createdAt
      · rw [if_pos hc] at hmap
        subst hmap
        exact ⟨hc.1, List.mem_append_right _ (by simp)⟩
      · rw [if_neg hc] at hmap
        subst hmap
        exact ⟨(hkey e he).1, List.mem_append_left _ (hkey e he).2⟩
    · intro e' he' q hq hqk
      obtain ⟨e, he, hmap⟩ := List.mem_map.mp he'
      rcases List.mem_append.mp hq with hqs | hqp
      · by_cases hc : e.1 = p.2.localPath ∧ e.2.1.createdAt < p.1.createdAt
        · rw [if_pos hc] at hmap
          subst hmap
          exact le_of_lt (lt_of_le_of_lt (hmax e he q hqs hqk) hc.2)
        · rw [if_neg hc] at hmap
          subst hmap
          exact hmax e he q hqs hqk
      · have hqp' : q = p := by simpa using hqp
        subst hqp'
        by_cases hc : e.1 = q.2.localPath ∧ e.2.1.createdAt < q.1.createdAt
        · rw [if_pos hc] at hmap
          subst hmap
          exact le_refl _
        · rw [if_neg hc] at hmap
          subst hmap
          have hnlt : ¬ e.2.1.createdAt < q.1.createdAt := fun hd =>
            hc ⟨hqk.symm, hd⟩
          omega
    · intro q hq
      rcases List.mem_append.mp hq with hqs | hqp
      · obtain ⟨e, he, hek⟩ := hcov q hqs
        refine ⟨(if e.1 = p.2.localPath ∧ e.2.1.createdAt < p.1.createdAt
          then (e.1, p) else e), List.mem_map_of_mem _ he, ?_⟩
        rw [hfst e]
        exact hek
      · have hqp' : q = p := by simpa using hqp
        subst hqp'
        obtain ⟨y, hy⟩ := Option.isSome_iff_exists.mp hfind
        have hym := List.mem_of_find?_eq_some hy
        have hyk := List.find?_some hy
        simp only [beq_iff_eq] at hyk
        refine ⟨(if y.1 = q.2.localPath ∧ y.2.1.createdAt < q.1.createdAt
          then (y.1, q) else y), List.mem_map_of_mem _ hym, ?_⟩
        rw [hfst y]
        exact hyk
  · rw [if_neg hfind]
    have hnotin : ∀ e ∈ m, e.1 ≠ p.2.localPath := by
      intro e he
      have hx := List.find?_eq_none.mp (Option.not_isSome_iff_eq_none.mp hfind) e he
      simpa using hx
    refine ⟨?_, ?_, ?_, ?_⟩
    · rw [List.map_append, List.nodup_append]
      refine ⟨hnd, by simp, ?_⟩
      intro a ha hb
      obtain ⟨e, he, hea⟩ := List.mem_map.mp ha
      have hbp : a = p.2.localPath := by simpa using hb
      rw [← hea] at hbp
      exact hnotin e he hbp
    · intro e' he'
      rcases List.mem_append.mp he' with hm | hp'
      · exact ⟨(hkey e' hm).1, List.mem_append_left _ (hkey e' hm).2⟩
      · have he'p : e' = (p.2.localPath, p) := by simpa using hp'
        subst he'p
        exact ⟨rfl, List.mem_append_right _ (by simp)⟩
    · intro e' he' q hq hqk
      rcases List.mem_append.mp he' with hm | hp'
      · rcases List.mem_append.mp hq with hqs | hqp
        · exact hmax e' hm q hqs hqk
        · have hqp' : q = p := by simpa using hqp
          subst hqp'
          exact absurd hqk.symm (hnotin e' hm)
      · have he'p : e' = (p.2.localPath, p) := by simpa using hp'
        subst he'p
        rcases List.mem_append.mp hq with hqs | hqp
        · obtain ⟨e, he, hek⟩ := hcov q hqs
          exact absurd (hek.trans hqk) (hnotin e he)
        · have hqp' : q = p := by simpa using hqp
          subst hqp'
          exact le_refl _
    · intro q hq
      rcases List.mem_append.mp hq with hqs | hqp
      · obtain ⟨e, he, hek⟩ := hcov q hqs
        exact ⟨e, List.mem_append_left _ he, hek⟩
      · have hqp' : q = p := by simpa using hqp
        subst hqp'
        exact ⟨(q.2.localPath, q), List.mem_append_right _ (by simp), rfl⟩

/-- The accumulation's invariant holds after folding any pair list on top
of an invariant-satisfying accumulator. -/
theorem dedupFold_inv_aux (ps : List (VersionRow × FileRow)) :
    ∀ (seen : List (VersionRow × FileRow))
      (m : List (String × VersionRow × FileRow)),
      DedupInv seen m → DedupInv (seen ++ ps) (ps.foldl dedupStep m) := by
  induction ps with
  | nil =>
    intro seen m h
    simpa using h
  | cons p ps ih =>
    intro seen m h
    have h2 := ih (seen ++ [p]) (dedupStep m p) (dedupStep_inv seen m p h)
    simpa using h2

/-- The accumulation's invariant holds of `dedupFold`. -/
theorem dedupFold_inv (ps : List (VersionRow × FileRow)) :
    DedupInv ps (dedupFold ps) := by
  have h := dedupFold_inv_aux ps [] []
    ⟨by simp, by simp, by simp, by simp⟩
  simpa [dedupFold] using h

/-- **C6.** The resolver's manifest holds at most one file per
`local_path`, and the file kept for a path is a candidate (a relevant
file of the READY versions above the client, paired with its owning
version) whose owner's `created_at` is greatest among the candidates
sharing that path. -/
theorem getUpdateFiles_newest_wins (st : St)
    (major minor revision os texture : Nat) (cursor : List FileRow) :
    ((getUpdateFiles st major minor revision os texture cursor).files.map
      ManifestFile.LocalPath).Nodup ∧
    (∀ mf ∈ (getUpdateFiles st major minor revision os texture cursor).files,
      ∃ p ∈ resolverCandidates (resolverVersions st major minor revision)
          os texture cursor,
        mf = manifestFileOf p ∧
        ∀ q ∈ resolverCandidates (resolverVersions st major minor revision)
            os texture cursor,
          q.2.localPath = p.2.localPath → q.1.createdAt ≤ p.1.createdAt) := by
  rcases hv : resolverVersions st major minor revision with _ | ⟨v, vs⟩
  · simp [getUpdateFiles, hv]
  · obtain ⟨hnd, hkey, hmax, _⟩ :=
      dedupFold_inv (resolverCandidates (v :: vs) os texture cursor)
    have hfiles : (getUpdateFiles st major minor revision os texture cursor).files
        = (dedupFold (resolverCandidates (v :: vs) os texture cursor)).map
            (fun e => manifestFileOf e.2) := by
      simp [getUpdateFiles, hv]
    constructor
    · rw [hfiles, List.map_map]
      have : (dedupFold (resolverCandidates (v :: vs) os texture cursor)).map
            (ManifestFile.LocalPath ∘ fun e => manifestFileOf e.2)
          = (dedupFold (resolverCandidates (v :: vs) os texture cursor)).map
              Prod.fst := by
        apply List.map_congr_left
        intro e he
        have hk := (hkey e he).1
        simp [manifestFileOf, Function.comp]
        exact hk.symm
      rw [this]
      exact hnd
    · intro mf hmf
      rw [hfiles] at hmf
      obtain ⟨e, he, hmfe⟩ := List.mem_map.mp hmf
      refine ⟨e.2, (hkey e he).2, hmfe.symm, ?_⟩
      intro q hq hqk
      apply hmax e he q hq
      rw [hqk]
      exact ((hkey e he).1).symm

/-- Closed instance of the C6 theorem: with `vR1` and `vR2` both
publishing `local_path` `x`, the manifest holds one file for `x`, the one
of the younger `vR2`. -/
theorem getUpdateFiles_newest_wins_instance :
    ((getUpdateFiles stC6 0 0 0 0 0 [fR1, fR2]).files.map
      ManifestFile.LocalPath).Nodup ∧
    (getUpdateFiles stC6 0 0 0 0 0 [fR1, fR2]).files.map ManifestFile.Filename
      = ["F2"] := by
  exact ⟨(getUpdateFiles_newest_wins stC6 0 0 0 0 0 [fR1, fR2]).1, by decide⟩

end NextMU
